import Mathlib

/-
Verification of the session-summary service (src/main.py) against its
specification.  The Python source is shallowly embedded: every request
handler and helper below is a direct translation of the corresponding
function in main.py; monetary amounts (Python floats carrying exact
decimal inputs) are modelled as rationals, Python dicts as association
lists, and raised HTTPExceptions as an error sum type.
-/

namespace SSM

/-- Error taxonomy of the service: 401, 403, 400, 404, plus the unhandled
Python TypeError that `list.sort` raises on a mix of offset-naive and
offset-aware datetimes. -/
inductive Err where
  | unauthenticated
  | forbidden
  | invalidArgument
  | notFound
  | typeError
deriving DecidableEq, Repr

/-- A JSON-facing number that is either an integer or a decimal, the
image of Python's int / float distinction. -/
inductive Num where
  | int (n : Int)
  | dec (q : ℚ)
deriving DecidableEq, Repr

/-- Translation of `_int_if_whole` (main.py line 45): return an int when
the value has no fractional part, else keep it a decimal. -/
def int_if_whole (q : ℚ) : Num :=
  if q.den = 1 then Num.int q.num else Num.dec q

/-- Numeric value denoted by a tagged number. -/
def numVal : Num → ℚ
  | Num.int n => (n : ℚ)
  | Num.dec q => q

/-- Whether a tagged number is rendered as an integer. -/
def isIntN : Num → Bool
  | Num.int _ => true
  | Num.dec _ => false

/-- Model of a Python `datetime` as produced by `fromisoformat`:
calendar fields plus an optional UTC offset in seconds (`none` models a
naive datetime). -/
structure DT where
  year : Nat
  month : Nat
  day : Nat
  hour : Nat
  minute : Nat
  second : Nat
  usec : Nat
  offset : Option Int
deriving DecidableEq, Repr

/-- Numeric value of a decimal digit character, `none` otherwise. -/
def dVal? (c : Char) : Option Nat :=
  if 48 ≤ c.toNat ∧ c.toNat ≤ 57 then some (c.toNat - 48) else none

/-- The decimal digit characters. -/
def digitChar : Nat → Char
  | 0 => '0' | 1 => '1' | 2 => '2' | 3 => '3' | 4 => '4'
  | 5 => '5' | 6 => '6' | 7 => '7' | 8 => '8' | 9 => '9'
  | _ => '0'

/-- Two decimal digit characters as a number. -/
def num2 (a b : Char) : Option Nat :=
  match dVal? a, dVal? b with
  | some x, some y => some (x * 10 + y)
  | _, _ => none

/-- Four decimal digit characters as a number. -/
def num4 (a b c d : Char) : Option Nat :=
  match dVal? a, dVal? b, dVal? c, dVal? d with
  | some w, some x, some y, some z => some (w * 1000 + x * 100 + y * 10 + z)
  | _, _, _, _ => none

/-- Fractional-second part of an ISO string: exactly three digits
(milliseconds) or six digits (microseconds), as accepted by
`datetime.fromisoformat`.  Returns microseconds and the rest. -/
def parseFrac (cs : List Char) : Option (Nat × List Char) :=
  match cs with
  | f1 :: f2 :: f3 :: rest =>
    match dVal? f1, dVal? f2, dVal? f3 with
    | some a, some b, some c =>
      match rest with
      | f4 :: f5 :: f6 :: rest2 =>
        match dVal? f4, dVal? f5, dVal? f6 with
        | some d, some e, some f =>
          some (a * 100000 + b * 10000 + c * 1000 + d * 100 + e * 10 + f, rest2)
        | _, _, _ => some (a * 100000 + b * 10000 + c * 1000, rest)
      | _ => some (a * 100000 + b * 10000 + c * 1000, rest)
    | _, _, _ => none
  | _ => none

/-- Magnitude part of a UTC offset, HH:MM or HH:MM:SS, in seconds. -/
def parseOffMag (cs : List Char) : Option Int :=
  match cs with
  | h1 :: h2 :: ':' :: m1 :: m2 :: rest =>
    match num2 h1 h2, num2 m1 m2 with
    | some hh, some mm =>
      if hh ≤ 23 ∧ mm ≤ 59 then
        match rest with
        | [] => some ((hh * 3600 + mm * 60 : Nat) : Int)
        | ':' :: s1 :: s2 :: [] =>
          match num2 s1 s2 with
          | some ss =>
            if ss ≤ 59 then some ((hh * 3600 + mm * 60 + ss : Nat) : Int) else none
          | none => none
        | _ => none
      else none
    | _, _ => none
  | _ => none

/-- Optional trailing UTC offset of an ISO string.  `some none` means a
naive datetime (no offset present). -/
def parseOff (cs : List Char) : Option (Option Int) :=
  match cs with
  | [] => some none
  | '+' :: rest => (parseOffMag rest).map (fun n => some n)
  | '-' :: rest => (parseOffMag rest).map (fun n => some (-n))
  | _ => none

/-- Time-of-day part HH[:MM[:SS[.fff or .ffffff]]] followed by an
optional offset, as accepted by `datetime.fromisoformat`. -/
def parseTimePart (y mo dd : Nat) (cs : List Char) : Option DT :=
  match cs with
  | h1 :: h2 :: rest =>
    match num2 h1 h2 with
    | none => none
    | some hh =>
      match rest with
      | ':' :: m1 :: m2 :: rest2 =>
        match num2 m1 m2 with
        | none => none
        | some mi =>
          match rest2 with
          | ':' :: s1 :: s2 :: rest3 =>
            match num2 s1 s2 with
            | none => none
            | some ss =>
              match rest3 with
              | '.' :: frest =>
                match parseFrac frest with
                | none => none
                | some (us, orest) =>
                  (parseOff orest).map (fun off => ⟨y, mo, dd, hh, mi, ss, us, off⟩)
              | _ =>
                (parseOff rest3).map (fun off => ⟨y, mo, dd, hh, mi, ss, 0, off⟩)
          | _ =>
            (parseOff rest2).map (fun off => ⟨y, mo, dd, hh, mi, 0, 0, off⟩)
      | _ =>
        (parseOff rest).map (fun off => ⟨y, mo, dd, hh, 0, 0, 0, off⟩)
  | _ => none

/-- Model of `datetime.fromisoformat` on the grammar the service relies
on: `YYYY-MM-DD` optionally followed by one separator character and
`HH[:MM[:SS[.fff or .ffffff]]][±HH:MM[:SS]]`.  Field ranges are
validated afterwards by `mkDT'`. -/
def parseRaw (cs : List Char) : Option DT :=
  match cs with
  | y1 :: y2 :: y3 :: y4 :: '-' :: m1 :: m2 :: '-' :: d1 :: d2 :: rest =>
    match num4 y1 y2 y3 y4, num2 m1 m2, num2 d1 d2 with
    | some y, some mo, some dd =>
      match rest with
      | [] => some ⟨y, mo, dd, 0, 0, 0, 0, none⟩
      | _ :: trest => parseTimePart y mo dd trest
    | _, _, _ => none
  | _ => none

/-- Proleptic-Gregorian leap-year rule, as in Python's `datetime`. -/
def isLeap (y : Nat) : Bool :=
  (y % 4 == 0 && y % 100 != 0) || y % 400 == 0

/-- Length of a month. -/
def daysInMonth (y m : Nat) : Nat :=
  match m with
  | 1 => 31 | 2 => if isLeap y then 29 else 28 | 3 => 31 | 4 => 30
  | 5 => 31 | 6 => 30 | 7 => 31 | 8 => 31 | 9 => 30 | 10 => 31
  | 11 => 30 | 12 => 31 | _ => 0

/-- Field-range validity enforced by the `datetime` constructor. -/
def dtValid (d : DT) : Bool :=
  1 ≤ d.year && d.year ≤ 9999 && 1 ≤ d.month && d.month ≤ 12 &&
  1 ≤ d.day && d.day ≤ daysInMonth d.year d.month &&
  d.hour ≤ 23 && d.minute ≤ 59 && d.second ≤ 59 && d.usec ≤ 999999

/-- Range validation applied to a raw parse result. -/
def mkDT' (d : DT) : Option DT :=
  if dtValid d then some d else none

/-- Python `str.replace` of `Z` by `+00:00` on the character list. -/
def zReplace (cs : List Char) : List Char :=
  cs.foldr (fun c acc => if c = 'Z' then '+' :: '0' :: '0' :: ':' :: '0' :: '0' :: acc else c :: acc) []

/-- Translation of `parse_iso` (main.py line 39): accept a trailing `Z`
by rewriting it to `+00:00`, then parse as ISO-8601. -/
def parse_iso (ts : String) : Option DT :=
  let cs := ts.toList
  if cs.getLast? = some 'Z' then (parseRaw (zReplace cs)).bind mkDT'
  else (parseRaw cs).bind mkDT'

/-- Days of the non-leap year before the first of a month. -/
def cumMonth (m : Nat) : Nat :=
  match m with
  | 1 => 0 | 2 => 31 | 3 => 59 | 4 => 90 | 5 => 120 | 6 => 151
  | 7 => 181 | 8 => 212 | 9 => 243 | 10 => 273 | 11 => 304 | 12 => 334
  | _ => 0

/-- Proleptic-Gregorian ordinal of a date, as in `date.toordinal`. -/
def toOrdinal (y m d : Nat) : Nat :=
  (y - 1) * 365 + ((y - 1) / 4 - (y - 1) / 100) + (y - 1) / 400 +
  cumMonth m + (if 2 < m && isLeap y then 1 else 0) + d

/-- Instant denoted by a datetime at second precision: field seconds
minus the UTC offset (a naive datetime is taken at face value, which is
how the service compares and renders it). -/
def instSec (d : DT) : Int :=
  ((toOrdinal d.year d.month d.day : Int) * 86400 +
   (d.hour : Int) * 3600 + (d.minute : Int) * 60 + (d.second : Int)) -
  d.offset.getD 0

/-- Sort key Python uses when comparing these datetimes: the instant at
microsecond precision (field comparison for naive values coincides with
this key at offset zero). -/
def dtKey (d : DT) : Int :=
  ((toOrdinal d.year d.month d.day : Int) * 86400 +
   (d.hour : Int) * 3600 + (d.minute : Int) * 60 + (d.second : Int)) * 1000000 +
  (d.usec : Int) - d.offset.getD 0 * 1000000

/-- Comparison relation used to model `ts_list.sort()`. -/
def keyLe (a b : DT) : Prop := dtKey a ≤ dtKey b

instance : DecidableRel keyLe := fun a b => inferInstanceAs (Decidable (dtKey a ≤ dtKey b))

instance : IsTotal DT keyLe := ⟨fun a b => Int.le_total (dtKey a) (dtKey b)⟩

instance : IsTrans DT keyLe := ⟨fun _ _ _ h1 h2 => Int.le_trans h1 h2⟩

/-- Two digit characters, zero padded. -/
def pad2 (n : Nat) : List Char :=
  [digitChar (n / 10 % 10), digitChar (n % 10)]

/-- Four digit characters, zero padded. -/
def pad4 (n : Nat) : List Char :=
  [digitChar (n / 1000 % 10), digitChar (n / 100 % 10), digitChar (n / 10 % 10), digitChar (n % 10)]

/-- Translation of `dt.replace(microsecond=0, tzinfo=timezone.utc).isoformat()`
(main.py lines 187 and 189): the wall-clock fields are rendered
unchanged and simply relabelled with a `+00:00` offset; no instant
conversion takes place. -/
def isoformatUTC (d : DT) : String :=
  String.mk (pad4 d.year ++ '-' :: (pad2 d.month ++ '-' :: (pad2 d.day ++
    'T' :: (pad2 d.hour ++ ':' :: (pad2 d.minute ++ ':' :: (pad2 d.second ++
    ['+', '0', '0', ':', '0', '0']))))))

/-- A recorded wager event, as appended by `record_event` (main.py
line 229): a type tag, an exact amount, and a timestamp string. -/
structure Event where
  event_type : String
  amount : ℚ
  timestamp : String
deriving DecidableEq, Repr

/-- An active session record: `{'start_time': ..., 'end_time': ...,
'events': [...]}` (main.py line 226). -/
structure Session where
  start_time : Option String
  end_time : Option String
  events : List Event
deriving DecidableEq, Repr

/-- The pydantic `Summary` model (main.py line 64). -/
structure SummaryV where
  session_id : String
  user_id : String
  start_time : String
  end_time : String
  rounds : Int
  total_bets : Num
  total_wins : Num
  net_change : Num
deriving DecidableEq, Repr

/-- Lookup in a Python dict modelled as an association list (first
binding wins; dicts built through `dictSet` have unique keys). -/
def lookupA {α : Type} (l : List (String × α)) (k : String) : Option α :=
  (l.find? (fun p => p.1 == k)).map (fun p => p.2)

/-- Assignment `d[k] = v` on a dict modelled as an association list. -/
def dictSet {α : Type} : List (String × α) → String → α → List (String × α)
  | [], k, v => [(k, v)]
  | (k', v') :: rest, k, v =>
    if k' = k then (k, v) :: rest else (k', v') :: dictSet rest k v

/-- The process-wide mutable stores `ACTIVE` and `FINISHED` (main.py
lines 97 and 100).  `TOKEN_USER` is threaded separately through
`current_user_id`, which is the only code touching it. -/
structure St where
  ACTIVE : List (String × List (String × Session))
  FINISHED : List (String × List SummaryV)
deriving DecidableEq, Repr

/-- Translation of `ACTIVE.get(user_id, {}).get(session_id)`. -/
def lookupSession (st : St) (user_id session_id : String) : Option Session :=
  lookupA ((lookupA st.ACTIVE user_id).getD []) session_id

/-- Write one session back into `ACTIVE` (in Python the nested dict is
mutated in place). -/
def setSession (st : St) (user_id session_id : String) (s : Session) : St :=
  { st with ACTIVE :=
      dictSet st.ACTIVE user_id (dictSet ((lookupA st.ACTIVE user_id).getD []) session_id s) }

/-- Translation of `FINISHED.get(user_id, [])`. -/
def finishedOf (st : St) (user_id : String) : List SummaryV :=
  (lookupA st.FINISHED user_id).getD []

/-- Write one user's finished list back into `FINISHED` (in Python via
`setdefault` plus in-place list mutation). -/
def setFinished (st : St) (user_id : String) (items : List SummaryV) : St :=
  { st with FINISHED := dictSet st.FINISHED user_id items }

/-- Python `x or default` on an optional string: `None` and the empty
string both fall through to the default. -/
def pyOrStr (o : Option String) (d : String) : String :=
  match o with
  | none => d
  | some s => if s = "" then d else s

/-- Python truthiness filter on an optional string. -/
def truthyOpt (o : Option String) : Option String :=
  match o with
  | none => none
  | some s => if s = "" then none else some s

/-- The bearer-token binding table `TOKEN_USER` (main.py line 94). -/
abbrev TU := List (String × String)

/-- Translation of `current_user_id` (main.py lines 137-152): resolve a
bearer token against the binding table, binding it to the `X-User-Id`
hint on first contact.  Returns the outcome together with the (possibly
updated) binding table. -/
def current_user_id (tu : TU) (token : String) (x_user_id : Option String) :
    Except Err String × TU :=
  match truthyOpt (lookupA tu token) with
  | some user_id =>
    match x_user_id with
    | some h =>
      if h ≠ "" ∧ h ≠ user_id then (Except.error Err.forbidden, tu)
      else (Except.ok user_id, tu)
    | none => (Except.ok user_id, tu)
  | none =>
    match truthyOpt x_user_id with
    | none => (Except.error Err.unauthenticated, tu)
    | some h => (Except.ok h, dictSet tu token h)

/-- Sum of the amounts of the events of one type, exactly as the
generator expressions of main.py lines 170-171 accumulate it. -/
def amountSum (events : List Event) (t : String) : ℚ :=
  (events.filter (fun e => e.event_type == t)).foldl (fun a e => a + e.amount) 0

/-- The parseable timestamps of an event list, in order (main.py lines
175-182: unparseable ones are skipped). -/
def parsedTs (events : List Event) : List DT :=
  events.filterMap (fun e => parse_iso e.timestamp)

/-- Whether a timestamp list mixes naive and offset-aware datetimes; on
such a list Python's `ts_list.sort()` raises `TypeError`. -/
def mixedTs (l : List DT) : Bool :=
  l.any (fun d => d.offset.isNone) && l.any (fun d => d.offset.isSome)

/-- The successful branch of `compute_summary` (main.py lines 167-201):
round and sum arithmetic over the event list, then derivation of the
rendered start and end times from the sorted parseable timestamps. -/
def summarize (sess : Session) (user_id session_id now : String) : SummaryV :=
  let events := sess.events
  let rounds := (events.filter (fun e => e.event_type == "bet")).length
  let total_bets := amountSum events "bet"
  let total_wins := amountSum events "win"
  let net_change := total_wins - total_bets
  let sorted := List.insertionSort keyLe (parsedTs events)
  let startEnd : Option String × Option String :=
    match sorted with
    | [] => (sess.start_time, sess.end_time)
    | s0 :: rest =>
      (some (isoformatUTC s0),
       match sess.end_time with
       | some e => some e
       | none => some (isoformatUTC (rest.getLastD s0)))
  { session_id := session_id
    user_id := user_id
    start_time := pyOrStr startEnd.1 now
    end_time := pyOrStr startEnd.2 now
    rounds := (rounds : Int)
    total_bets := int_if_whole total_bets
    total_wins := int_if_whole total_wins
    net_change := int_if_whole net_change }

/-- Translation of `compute_summary` (main.py lines 158-201): an active
session is summarized (raising `TypeError` out of `ts_list.sort()` when
naive and aware timestamps are mixed); otherwise the finished archive
is searched; otherwise 404. -/
def compute_summary (st : St) (user_id session_id now : String) :
    Except Err SummaryV :=
  match lookupSession st user_id session_id with
  | some sess =>
    if mixedTs (parsedTs sess.events) then Except.error Err.typeError
    else Except.ok (summarize sess user_id session_id now)
  | none =>
    match (finishedOf st user_id).find? (fun s => s.session_id == session_id) with
    | some s => Except.ok s
    | none => Except.error Err.notFound

/-- The replace-or-append loop of `end_session` (main.py lines
249-255): the first archive entry with the same session id is replaced
in place, else the summary is appended. -/
def upsertFinished (items : List SummaryV) (s : SummaryV) : List SummaryV :=
  match items with
  | [] => [s]
  | x :: xs =>
    if x.session_id = s.session_id then s :: xs else x :: upsertFinished xs s

/-- Translation of `end_session` (main.py lines 238-258): 404 without
an active session; set `end_time` only if unset; recompute the summary;
upsert it into the finished archive. -/
def end_session (st : St) (user_id session_id now : String) :
    Except Err (St × SummaryV) :=
  match lookupSession st user_id session_id with
  | none => Except.error Err.notFound
  | some sess =>
    let sess' := match sess.end_time with
      | none => { sess with end_time := some now }
      | some _ => sess
    let st1 := setSession st user_id session_id sess'
    match compute_summary st1 user_id session_id now with
    | Except.error e => Except.error e
    | Except.ok summary =>
      let st2 := setFinished st1 user_id (upsertFinished (finishedOf st1 user_id) summary)
      Except.ok (st2, summary)

/-- Lexicographic comparison of code-point sequences, Python's `<` on
strings. -/
def natLexLt : List Nat → List Nat → Bool
  | [], [] => false
  | [], _ :: _ => true
  | _ :: _, [] => false
  | a :: as, b :: bs =>
    if a < b then true else if b < a then false else natLexLt as bs

/-- Code points of a string. -/
def sKey (s : String) : List Nat := s.toList.map Char.toNat

/-- Python `a > b` on strings. -/
def strGt (a b : String) : Bool := natLexLt (sKey b) (sKey a)

/-- One step of Python's `max`: replace the running maximum only on a
strictly greater key. -/
def stepMax (acc s : SummaryV) : SummaryV :=
  if strGt s.end_time acc.end_time then s else acc

/-- Translation of `max(items, key=...)` over end times (main.py line
265): the first entry whose end time no later entry strictly exceeds. -/
def latestOf (items : List SummaryV) : Option SummaryV :=
  match items with
  | [] => none
  | x :: xs => some (xs.foldl stepMax x)

/-- Translation of `get_latest` (main.py lines 260-266): `none` models
the explicit `ok=False` "no summary found" response. -/
def get_latest (st : St) (user_id : String) : Option SummaryV :=
  latestOf (finishedOf st user_id)

/-- Translation of `session_id or legacy_sess_id` (main.py line 274). -/
def pyOrOpt (a b : Option String) : Option String :=
  match truthyOpt a with
  | some s => some s
  | none => b

/-- Translation of `export_session` (main.py lines 268-289): take the
identifier from the current or the legacy query parameter, 400 when
both are missing or empty, prefer a finished-archive match returned
verbatim, else compute from the active session. -/
def export_session (st : St) (session_id legacy_sess_id : Option String)
    (user_id now : String) : Except Err SummaryV :=
  match truthyOpt (pyOrOpt session_id legacy_sess_id) with
  | none => Except.error Err.invalidArgument
  | some sid =>
    match (finishedOf st user_id).find? (fun f => f.session_id == sid) with
    | some f => Except.ok f
    | none => compute_summary st user_id sid now

/-- JSON documents as written by `json.dump` and read back by
`json.load`; integers and decimals are distinct number shapes, exactly
as Python's `json` keeps `int` and `float` apart. -/
inductive J where
  | jstr (s : String)
  | jint (n : Int)
  | jdec (q : ℚ)
  | jarr (xs : List J)
  | jobj (kvs : List (String × J))

/-- JSON shape of a tagged number under `json.dump`. -/
def encodeNum : Num → J
  | Num.int n => J.jint n
  | Num.dec q => J.jdec q

/-- Reading a JSON number back as `int` or `float`, the `float | int`
union of the pydantic `Summary` fields. -/
def decodeNum : J → Option Num
  | J.jint n => some (Num.int n)
  | J.jdec q => some (Num.dec q)
  | _ => none

/-- A JSON string field. -/
def asStr : J → Option String
  | J.jstr s => some s
  | _ => none

/-- A JSON integer field, the `int` of `Summary.rounds`. -/
def asInt : J → Option Int
  | J.jint n => some n
  | _ => none

/-- JSON shape of one archived summary dict (`summary.model_dump()`). -/
def encodeSummary (s : SummaryV) : J :=
  J.jobj [("session_id", J.jstr s.session_id), ("user_id", J.jstr s.user_id),
          ("start_time", J.jstr s.start_time), ("end_time", J.jstr s.end_time),
          ("rounds", J.jint s.rounds), ("total_bets", encodeNum s.total_bets),
          ("total_wins", encodeNum s.total_wins), ("net_change", encodeNum s.net_change)]

/-- Reconstructing `Summary(**s)` from a loaded JSON dict, validating
the field types the pydantic model declares. -/
def decodeSummary (j : J) : Option SummaryV :=
  match j with
  | J.jobj kvs => do
    let sid ← (lookupA kvs "session_id").bind asStr
    let uid ← (lookupA kvs "user_id").bind asStr
    let st ← (lookupA kvs "start_time").bind asStr
    let et ← (lookupA kvs "end_time").bind asStr
    let r ← (lookupA kvs "rounds").bind asInt
    let tb ← (lookupA kvs "total_bets").bind decodeNum
    let tw ← (lookupA kvs "total_wins").bind decodeNum
    let nc ← (lookupA kvs "net_change").bind decodeNum
    pure ⟨sid, uid, st, et, r, tb, tw, nc⟩
  | _ => none

/-- The durable document `save_finished` writes (main.py lines
119-123): the whole `FINISHED` mapping serialized by `json.dump`. -/
def save_finished (st : St) : J :=
  J.jobj (st.FINISHED.map (fun p => (p.1, J.jarr (p.2.map encodeSummary))))

/-- Reading a loaded JSON array back as a list of summaries. -/
def decodeSummaryList : List J → Option (List SummaryV)
  | [] => some []
  | j :: rest =>
    match decodeSummary j, decodeSummaryList rest with
    | some s, some ss => some (s :: ss)
    | _, _ => none

/-- Reading the loaded per-user entries back. -/
def decodeEntries : List (String × J) → Option (List (String × List SummaryV))
  | [] => some []
  | (u, J.jarr xs) :: rest =>
    match decodeSummaryList xs, decodeEntries rest with
    | some ss, some es => some ((u, ss) :: es)
    | _, _ => none
  | _ => none

/-- Translation of `load_finished` (main.py lines 106-117) followed by per-entry
`Summary(**s)` reconstruction: parse the document back into per-user
summary lists. -/
def decodeArchive (j : J) : Option (List (String × List SummaryV)) :=
  match j with
  | J.jobj kvs => decodeEntries kvs
  | _ => none

theorem lookupA_cons_eq {α : Type} (k0 : String) (v0 : α) (rest : List (String × α)) :
    lookupA ((k0, v0) :: rest) k0 = some v0 := by
  simp [lookupA, List.find?_cons]

theorem lookupA_cons_ne {α : Type} (k0 : String) (v0 : α) (rest : List (String × α))
    (k' : String) (h : k' ≠ k0) :
    lookupA ((k0, v0) :: rest) k' = lookupA rest k' := by
  simp [lookupA, List.find?_cons,
    show (k0 == k') = false from beq_eq_false_iff_ne.mpr (Ne.symm h)]

theorem lookupA_dictSet {α : Type} (l : List (String × α)) (k : String) (v : α)
    (k' : String) :
    lookupA (dictSet l k v) k' = if k' = k then some v else lookupA l k' := by
  induction l with
  | nil =>
    by_cases h : k' = k
    · subst h; simp [dictSet, lookupA_cons_eq]
    · rw [show dictSet ([] : List (String × α)) k v = [(k, v)] from rfl,
        lookupA_cons_ne k v [] k' h, if_neg h]
  | cons p rest ih =>
    obtain ⟨k0, v0⟩ := p
    by_cases h1 : k0 = k
    · subst h1
      rw [show dictSet ((k0, v0) :: rest) k0 v = (k0, v) :: rest from by simp [dictSet]]
      by_cases h : k' = k0
      · subst h; rw [lookupA_cons_eq, if_pos rfl]
      · rw [lookupA_cons_ne _ _ _ _ h, if_neg h, lookupA_cons_ne _ _ _ _ h]
    · rw [show dictSet ((k0, v0) :: rest) k v = (k0, v0) :: dictSet rest k v from by
        simp [dictSet, h1]]
      by_cases h : k' = k0
      · subst h
        rw [if_neg h1, lookupA_cons_eq, lookupA_cons_eq]
      · rw [lookupA_cons_ne _ _ _ _ h, lookupA_cons_ne _ _ _ _ h, ih]

theorem numVal_int_if_whole (q : ℚ) : numVal (int_if_whole q) = q := by
  unfold int_if_whole
  split
  · rename_i h
    have h2 := Rat.num_div_den q
    rw [h] at h2
    simpa [numVal] using h2
  · rfl

theorem isIntN_int_if_whole (q : ℚ) : isIntN (int_if_whole q) = true ↔ q.den = 1 := by
  unfold int_if_whole
  split <;> simp [isIntN, *]

theorem upsertFinished_length_of_mem (items : List SummaryV) (s : SummaryV)
    (h : ∃ x ∈ items, x.session_id = s.session_id) :
    (upsertFinished items s).length = items.length := by
  induction items with
  | nil => simp at h
  | cons x xs ih =>
    by_cases hx : x.session_id = s.session_id
    · simp [upsertFinished, hx]
    · obtain ⟨y, hy, hys⟩ := h
      rcases List.mem_cons.mp hy with rfl | hmem
      · exact absurd hys hx
      · simp [upsertFinished, hx, ih ⟨y, hmem, hys⟩]

theorem upsertFinished_of_not_mem (items : List SummaryV) (s : SummaryV)
    (h : ∀ x ∈ items, x.session_id ≠ s.session_id) :
    upsertFinished items s = items ++ [s] := by
  induction items with
  | nil => rfl
  | cons x xs ih =>
    have hx := h x (List.mem_cons_self x xs)
    simp [upsertFinished, hx, ih (fun y hy => h y (List.mem_cons_of_mem _ hy))]

/-- Number of archive entries carrying a given session id. -/
def cntSid (items : List SummaryV) (sid : String) : Nat :=
  (items.filter (fun x => x.session_id == sid)).length

theorem cntSid_nil (sid : String) : cntSid [] sid = 0 := rfl

theorem cntSid_cons (y : SummaryV) (l : List SummaryV) (sid : String) :
    cntSid (y :: l) sid = (if y.session_id = sid then 1 else 0) + cntSid l sid := by
  by_cases h : y.session_id = sid <;> simp [cntSid, List.filter_cons, h] <;> omega

theorem cntSid_upsertFinished_ne (items : List SummaryV) (s : SummaryV)
    (sid : String) (h : sid ≠ s.session_id) :
    cntSid (upsertFinished items s) sid = cntSid items sid := by
  induction items with
  | nil =>
    rw [show upsertFinished [] s = [s] from rfl, cntSid_cons, cntSid_nil,
      if_neg (Ne.symm h)]
  | cons x xs ih =>
    by_cases hx : x.session_id = s.session_id
    · rw [show upsertFinished (x :: xs) s = s :: xs from by simp [upsertFinished, hx],
        cntSid_cons, cntSid_cons, if_neg (Ne.symm h),
        if_neg (show ¬ x.session_id = sid from fun hc => h (hc.symm.trans hx))]
    · rw [show upsertFinished (x :: xs) s = x :: upsertFinished xs s from by
        simp [upsertFinished, hx], cntSid_cons, cntSid_cons, ih]

theorem cntSid_upsertFinished_self (items : List SummaryV) (s : SummaryV) :
    cntSid (upsertFinished items s) s.session_id =
      max 1 (cntSid items s.session_id) := by
  induction items with
  | nil =>
    rw [show upsertFinished [] s = [s] from rfl, cntSid_cons, cntSid_nil]
    simp
  | cons x xs ih =>
    by_cases hx : x.session_id = s.session_id
    · rw [show upsertFinished (x :: xs) s = s :: xs from by simp [upsertFinished, hx],
        cntSid_cons, cntSid_cons, if_pos rfl, if_pos hx]
      omega
    · rw [show upsertFinished (x :: xs) s = x :: upsertFinished xs s from by
        simp [upsertFinished, hx], cntSid_cons, cntSid_cons, ih, if_neg hx]
      omega

theorem upsertFinished_find (items : List SummaryV) (s : SummaryV) :
    (upsertFinished items s).find? (fun x => x.session_id == s.session_id) = some s := by
  induction items with
  | nil => simp [upsertFinished]
  | cons x xs ih =>
    by_cases hx : x.session_id = s.session_id
    · simp [upsertFinished, hx]
    · simp [upsertFinished, hx, ih]

theorem natLexLt_irrefl (l : List Nat) : natLexLt l l = false := by
  induction l with
  | nil => rfl
  | cons a as ih => simp [natLexLt, ih]

theorem natLexLt_iff : ∀ (a b : List Nat),
    natLexLt a b = true ↔ List.Lex (· < ·) a b := by
  intro a
  induction a with
  | nil =>
    intro b
    cases b with
    | nil =>
      constructor
      · intro h; exact absurd h (by simp [natLexLt])
      · intro h; exact absurd h (List.Lex.not_nil_right _ _)
    | cons y ys =>
      constructor
      · intro _; exact List.Lex.nil
      · intro _; rfl
  | cons x xs ih =>
    intro b
    cases b with
    | nil =>
      constructor
      · intro h; exact absurd h (by simp [natLexLt])
      · intro h; exact absurd h (List.Lex.not_nil_right _ _)
    | cons y ys =>
      constructor
      · intro h
        rcases Nat.lt_trichotomy x y with hxy | hxy | hxy
        · exact List.Lex.rel hxy
        · subst hxy
          have hx : ¬ x < x := lt_irrefl x
          unfold natLexLt at h
          rw [if_neg hx, if_neg hx] at h
          exact List.Lex.cons ((ih ys).mp h)
        · exfalso
          unfold natLexLt at h
          rw [if_neg (Nat.lt_asymm hxy), if_pos hxy] at h
          exact Bool.false_ne_true h
      · intro h
        cases h with
        | rel hr => unfold natLexLt; rw [if_pos hr]
        | cons h' =>
          have hx : ¬ x < x := lt_irrefl x
          unfold natLexLt
          rw [if_neg hx, if_neg hx]
          exact (ih ys).mpr h'

theorem natLexLt_trans {a b c : List Nat}
    (h1 : natLexLt a b = true) (h2 : natLexLt b c = true) : natLexLt a c = true := by
  rw [natLexLt_iff] at h1 h2 ⊢
  exact IsTrans.trans a b c h1 h2

theorem natLexLt_conn (a b : List Nat) (h : natLexLt a b = false) :
    natLexLt b a = true ∨ a = b := by
  have h3 : List.Lex (· < ·) a b ∨ a = b ∨ List.Lex (· < ·) b a := trichotomous a b
  rcases h3 with h1 | h1 | h1
  · exact absurd ((natLexLt_iff a b).mpr h1) (by simp [h])
  · right; exact h1
  · left; exact (natLexLt_iff b a).mpr h1

theorem strGt_irrefl (s : String) : strGt s s = false :=
  natLexLt_irrefl (sKey s)

theorem stepMax_cases (a b : SummaryV) : stepMax a b = a ∨ stepMax a b = b := by
  unfold stepMax
  split
  · right; rfl
  · left; rfl

theorem foldl_stepMax_spec : ∀ (xs : List SummaryV) (a : SummaryV),
    xs.foldl stepMax a ∈ a :: xs ∧
    ∀ y ∈ a :: xs, strGt y.end_time (xs.foldl stepMax a).end_time = false := by
  intro xs
  induction xs with
  | nil =>
    intro a
    refine ⟨by simp, ?_⟩
    intro y hy
    rw [List.mem_singleton] at hy
    subst hy
    exact strGt_irrefl _
  | cons b bs ih =>
    intro a
    obtain ⟨hmem, hall⟩ := ih (stepMax a b)
    rw [List.foldl_cons]
    constructor
    · rcases stepMax_cases a b with hs | hs
      · rw [hs] at hmem ⊢
        rcases List.mem_cons.mp hmem with he | hbs
        · rw [he]; exact List.mem_cons_self _ _
        · exact List.mem_cons_of_mem a (List.mem_cons_of_mem b hbs)
      · rw [hs] at hmem ⊢
        rcases List.mem_cons.mp hmem with he | hbs
        · rw [he]; exact List.mem_cons_of_mem a (List.mem_cons_self _ _)
        · exact List.mem_cons_of_mem a (List.mem_cons_of_mem b hbs)
    · intro y hy
      unfold strGt at hall ⊢
      rcases List.mem_cons.mp hy with hya | hy2
      · rw [hya]
        by_cases hgt : strGt b.end_time a.end_time = true
        · have hsb : stepMax a b = b := by unfold stepMax; rw [if_pos hgt]
          have hb := hall b (by rw [hsb]; exact List.mem_cons_self _ _)
          unfold strGt at hgt
          cases hcc : natLexLt (sKey (bs.foldl stepMax (stepMax a b)).end_time) (sKey a.end_time)
          · rfl
          · exact absurd (natLexLt_trans hcc hgt) (by simp [hb])
        · have hsa : stepMax a b = a := by unfold stepMax; rw [if_neg hgt]
          exact hall a (by rw [hsa]; exact List.mem_cons_self _ _)
      · rcases List.mem_cons.mp hy2 with hyb | hy3
        · rw [hyb]
          by_cases hgt : strGt b.end_time a.end_time = true
          · have hsb : stepMax a b = b := by unfold stepMax; rw [if_pos hgt]
            exact hall b (by rw [hsb]; exact List.mem_cons_self _ _)
          · have hsa : stepMax a b = a := by unfold stepMax; rw [if_neg hgt]
            have ha := hall a (by rw [hsa]; exact List.mem_cons_self _ _)
            have hgf : natLexLt (sKey a.end_time) (sKey b.end_time) = false := by
              unfold strGt at hgt
              exact Bool.not_eq_true _ |>.mp hgt
            rcases natLexLt_conn _ _ hgf with hlt | heq
            · cases hcc : natLexLt (sKey (bs.foldl stepMax (stepMax a b)).end_time) (sKey b.end_time)
              · rfl
              · exact absurd (natLexLt_trans hcc hlt) (by simp [ha])
            · rw [← heq]
              exact ha
        · exact hall y (List.mem_cons_of_mem _ hy3)

theorem latestOf_spec (items : List SummaryV) (h : items ≠ []) :
    ∃ m, latestOf items = some m ∧ m ∈ items ∧
      ∀ x ∈ items, strGt x.end_time m.end_time = false := by
  cases items with
  | nil => exact absurd rfl h
  | cons x xs =>
    obtain ⟨hmem, hall⟩ := foldl_stepMax_spec xs x
    exact ⟨_, rfl, hmem, hall⟩

theorem sorted_head_min (a : DT) (l : List DT) (h : List.Sorted keyLe (a :: l)) :
    ∀ x ∈ a :: l, keyLe a x := by
  intro x hx
  rcases List.mem_cons.mp hx with rfl | hm
  · exact le_refl _
  · exact List.rel_of_sorted_cons h x hm

theorem getLastD_mem : ∀ (l : List DT) (a : DT), l.getLastD a ∈ a :: l := by
  intro l
  induction l with
  | nil => intro a; simp
  | cons b bs ih =>
    intro a
    rw [List.getLastD_cons]
    exact List.mem_cons_of_mem a (ih b)

theorem sorted_getLastD_max : ∀ (l : List DT) (a : DT),
    List.Sorted keyLe (a :: l) → ∀ x ∈ a :: l, keyLe x (l.getLastD a) := by
  intro l
  induction l with
  | nil =>
    intro a _ x hx
    rw [List.mem_singleton] at hx
    rw [hx]
    exact le_refl _
  | cons b bs ih =>
    intro a h x hx
    have hcons := List.sorted_cons.mp h
    rw [List.getLastD_cons]
    rcases List.mem_cons.mp hx with rfl | hm
    · exact le_trans (hcons.1 b (List.mem_cons_self _ _))
        (ih b hcons.2 b (List.mem_cons_self _ _))
    · exact ih b hcons.2 x hm

theorem isoformatUTC_ne_empty (d : DT) : isoformatUTC d ≠ "" := by
  intro h
  have h2 := congrArg String.data h
  simp [isoformatUTC, pad4, pad2] at h2

theorem insertionSort_ne_nil {l : List DT} (h : l ≠ []) :
    List.insertionSort keyLe l ≠ [] := by
  intro hc
  exact h (List.eq_nil_of_length_eq_zero
    (by rw [← (List.perm_insertionSort keyLe l).length_eq, hc]; rfl))

theorem dVal?_digitChar {k : Nat} (hk : k ≤ 9) : dVal? (digitChar k) = some k := by
  interval_cases k <;> rfl

theorem num2_digits {n : Nat} (hn : n ≤ 99) :
    num2 (digitChar (n / 10 % 10)) (digitChar (n % 10)) = some n := by
  have h1 : n / 10 % 10 ≤ 9 := by omega
  have h2 : n % 10 ≤ 9 := by omega
  unfold num2
  rw [dVal?_digitChar h1, dVal?_digitChar h2]
  have h3 : n / 10 % 10 * 10 + n % 10 = n := by omega
  simp [h3]

theorem num4_digits {n : Nat} (hn : n ≤ 9999) :
    num4 (digitChar (n / 1000 % 10)) (digitChar (n / 100 % 10))
      (digitChar (n / 10 % 10)) (digitChar (n % 10)) = some n := by
  have h1 : n / 1000 % 10 ≤ 9 := by omega
  have h2 : n / 100 % 10 ≤ 9 := by omega
  have h3 : n / 10 % 10 ≤ 9 := by omega
  have h4 : n % 10 ≤ 9 := by omega
  unfold num4
  rw [dVal?_digitChar h1, dVal?_digitChar h2, dVal?_digitChar h3, dVal?_digitChar h4]
  have h5 : n / 1000 % 10 * 1000 + n / 100 % 10 * 100 + n / 10 % 10 * 10 + n % 10 = n := by
    omega
  simp [h5]

theorem parseOff_utc : parseOff ['+', '0', '0', ':', '0', '0'] = some (some 0) := rfl

theorem parseTimePart_pads (y mo dd hh mi ss : Nat)
    (hh9 : hh ≤ 99) (mi9 : mi ≤ 99) (ss9 : ss ≤ 99) :
    parseTimePart y mo dd
      (pad2 hh ++ ':' :: (pad2 mi ++ ':' :: (pad2 ss ++ ['+', '0', '0', ':', '0', '0']))) =
      some ⟨y, mo, dd, hh, mi, ss, 0, some 0⟩ := by
  unfold pad2
  simp only [List.cons_append, List.nil_append]
  simp only [parseTimePart, num2_digits hh9, num2_digits mi9, num2_digits ss9, parseOff_utc,
    Option.map_some']
  rfl

theorem parseRaw_pads (y mo dd : Nat) (T : List Char)
    (hy : y ≤ 9999) (hmo : mo ≤ 99) (hdd : dd ≤ 99) :
    parseRaw (pad4 y ++ '-' :: (pad2 mo ++ '-' :: (pad2 dd ++ 'T' :: T))) =
      parseTimePart y mo dd T := by
  unfold pad4 pad2
  simp only [List.cons_append, List.nil_append]
  simp only [parseRaw, num4_digits hy, num2_digits hmo, num2_digits hdd]

theorem daysInMonth_le (y m : Nat) : daysInMonth y m ≤ 31 := by
  unfold daysInMonth
  split <;> first | omega | (split <;> omega)

theorem parse_iso_isoformatUTC (d : DT) (hv : dtValid d = true) :
    parse_iso (isoformatUTC d) =
      some ⟨d.year, d.month, d.day, d.hour, d.minute, d.second, 0, some 0⟩ := by
  obtain ⟨y, mo, dd, hh, mi, ss, us, off⟩ := d
  simp only [dtValid, Bool.and_eq_true, decide_eq_true_eq] at hv
  obtain ⟨⟨⟨⟨⟨⟨⟨⟨⟨h1, h2⟩, h3⟩, h4⟩, h5⟩, h6⟩, h7⟩, h8⟩, h9⟩, h10⟩ := hv
  have hlist : (isoformatUTC ⟨y, mo, dd, hh, mi, ss, us, off⟩).toList =
      pad4 y ++ '-' :: (pad2 mo ++ '-' :: (pad2 dd ++ 'T' :: (pad2 hh ++ ':' ::
        (pad2 mi ++ ':' :: (pad2 ss ++ ['+', '0', '0', ':', '0', '0']))))) := rfl
  have hlast : (pad4 y ++ '-' :: (pad2 mo ++ '-' :: (pad2 dd ++ 'T' :: (pad2 hh ++ ':' ::
      (pad2 mi ++ ':' :: (pad2 ss ++ ['+', '0', '0', ':', '0', '0'])))))).getLast? =
      some '0' := rfl
  unfold parse_iso
  rw [hlist, if_neg (by rw [hlast]; simp)]
  rw [parseRaw_pads y mo dd _ h2 (by omega) (by have := daysInMonth_le y mo; omega),
    parseTimePart_pads y mo dd hh mi ss (by omega) (by omega) (by omega)]
  have hv2 : dtValid ⟨y, mo, dd, hh, mi, ss, 0, some 0⟩ = true := by
    simp [dtValid, decide_eq_true_eq, h1, h2, h3, h4, h5, h6, h7, h8, h9]
  simp [mkDT', hv2]

theorem parse_iso_valid {ts : String} {d : DT} (h : parse_iso ts = some d) :
    dtValid d = true := by
  have h' : (if ts.toList.getLast? = some 'Z' then (parseRaw (zReplace ts.toList)).bind mkDT'
      else (parseRaw ts.toList).bind mkDT') = some d := h
  split at h' <;>
  · rcases Option.bind_eq_some.mp h' with ⟨raw, _, hmk⟩
    unfold mkDT' at hmk
    split at hmk
    · rename_i hvr
      cases hmk
      exact hvr
    · cases hmk

theorem decodeSummary_encodeSummary (s : SummaryV) :
    decodeSummary (encodeSummary s) = some s := by
  obtain ⟨sid, uid, st, et, r, tb, tw, nc⟩ := s
  cases tb <;> cases tw <;> cases nc <;> rfl

theorem decodeSummaryList_encode (ss : List SummaryV) :
    decodeSummaryList (ss.map encodeSummary) = some ss := by
  induction ss with
  | nil => rfl
  | cons s rest ih =>
    simp only [List.map_cons, decodeSummaryList, decodeSummary_encodeSummary, ih]

theorem decodeEntries_encode (l : List (String × List SummaryV)) :
    decodeEntries (l.map (fun p => (p.1, J.jarr (p.2.map encodeSummary)))) = some l := by
  induction l with
  | nil => rfl
  | cons p rest ih =>
    obtain ⟨u, ss⟩ := p
    simp only [List.map_cons, decodeEntries, decodeSummaryList_encode, ih]

theorem compute_summary_active (st : St) (u sid now : String) (sess : Session)
    (h1 : lookupSession st u sid = some sess) :
    compute_summary st u sid now =
      if mixedTs (parsedTs sess.events) then Except.error Err.typeError
      else Except.ok (summarize sess u sid now) := by
  unfold compute_summary
  rw [h1]

theorem filter_no_loss (events : List Event) (t : String) (ht : t ≠ "loss") :
    (events.filter (fun e => !(e.event_type == "loss"))).filter
        (fun e => e.event_type == t) =
      events.filter (fun e => e.event_type == t) := by
  induction events with
  | nil => rfl
  | cons e rest ih =>
    by_cases hl : e.event_type = "loss"
    · have h2 : ("loss" == t) = false := beq_eq_false_iff_ne.mpr (Ne.symm ht)
      simp only [List.filter_cons, hl, beq_self_eq_true, Bool.not_true, Bool.false_eq_true,
        if_false, h2, ih]
    · have h1 : (!(e.event_type == "loss")) = true := by
        simp [beq_eq_false_iff_ne.mpr hl]
      simp only [List.filter_cons, h1, if_true, ih]

/-- Claim C1: for an active session, `compute_summary` returns rounds
equal to the number of bet events, total_bets the sum of bet amounts,
total_wins the sum of win amounts, and net_change their difference;
loss events contribute to none of these; each numeric total is rendered
as an integer exactly when its value is whole, else as a decimal. -/
theorem C1_summary_arithmetic (st : St) (u sid now : String) (sess : Session)
    (s : SummaryV)
    (h1 : lookupSession st u sid = some sess)
    (h2 : compute_summary st u sid now = Except.ok s) :
    s.rounds = ((sess.events.filter (fun e => e.event_type == "bet")).length : Int) ∧
    numVal s.total_bets = amountSum sess.events "bet" ∧
    numVal s.total_wins = amountSum sess.events "win" ∧
    numVal s.net_change = amountSum sess.events "win" - amountSum sess.events "bet" ∧
    (s.rounds = (((sess.events.filter (fun e => !(e.event_type == "loss"))).filter
        (fun e => e.event_type == "bet")).length : Int) ∧
      amountSum (sess.events.filter (fun e => !(e.event_type == "loss"))) "bet" =
        amountSum sess.events "bet" ∧
      amountSum (sess.events.filter (fun e => !(e.event_type == "loss"))) "win" =
        amountSum sess.events "win") ∧
    (isIntN s.total_bets = true ↔ (amountSum sess.events "bet").den = 1) ∧
    (isIntN s.total_wins = true ↔ (amountSum sess.events "win").den = 1) ∧
    (isIntN s.net_change = true ↔
      (amountSum sess.events "win" - amountSum sess.events "bet").den = 1) := by
  rw [compute_summary_active st u sid now sess h1] at h2
  by_cases hm : mixedTs (parsedTs sess.events)
  · rw [if_pos hm] at h2
    cases h2
  · rw [if_neg hm] at h2
    cases h2
    refine ⟨rfl, numVal_int_if_whole _, numVal_int_if_whole _, numVal_int_if_whole _,
      ⟨?_, ?_, ?_⟩, isIntN_int_if_whole _, isIntN_int_if_whole _, isIntN_int_if_whole _⟩
    · rw [filter_no_loss sess.events "bet" (by decide)]
      rfl
    · unfold amountSum
      rw [filter_no_loss sess.events "bet" (by decide)]
    · unfold amountSum
      rw [filter_no_loss sess.events "win" (by decide)]

/-- The specification's worked example: events
[bet 10, win 15, bet 5, loss 3]. -/
def sessEx : Session :=
  ⟨some "2026-02-12T14:00:00Z", none,
    [⟨"bet", 10, "2026-02-12T14:05:00Z"⟩, ⟨"win", 15, "2026-02-12T14:06:00Z"⟩,
     ⟨"bet", 5, "2026-02-12T14:07:00Z"⟩, ⟨"loss", 3, "2026-02-12T14:08:00Z"⟩]⟩

/-- A store holding the worked example as user "u"'s session "s". -/
def stEx : St := ⟨[("u", [("s", sessEx)])], []⟩

/-- Witness for C1 at the specification's worked example: the summary
of [bet 10, win 15, bet 5, loss 3] has rounds 2 and its totals are the
event sums. -/
theorem C1_summary_arithmetic_witness :
    (summarize sessEx "u" "s" "NOW").rounds = 2 ∧
    numVal (summarize sessEx "u" "s" "NOW").total_bets = amountSum sessEx.events "bet" ∧
    numVal (summarize sessEx "u" "s" "NOW").total_wins = amountSum sessEx.events "win" ∧
    numVal (summarize sessEx "u" "s" "NOW").net_change =
      amountSum sessEx.events "win" - amountSum sessEx.events "bet" := by
  have h := C1_summary_arithmetic stEx "u" "s" "NOW" sessEx (summarize sessEx "u" "s" "NOW")
    rfl (by rw [compute_summary_active stEx "u" "s" "NOW" sessEx rfl]; rfl)
  exact ⟨h.1.trans (by decide), h.2.1, h.2.2.1, h.2.2.2.1⟩

/-- Claim C2: identity resolution fails Unauthenticated on an unknown
token without a hint, binds and returns a fresh hint, returns the bound
user when the hint is absent or matches, fails Forbidden on a
conflicting hint without overwriting, and a bound token keeps resolving
to the same user across any later call. -/
theorem C2_identity_resolution (tu : TU) (token : String) :
    (lookupA tu token = none →
      current_user_id tu token none = (Except.error Err.unauthenticated, tu) ∧
      ∀ h, h ≠ "" → current_user_id tu token (some h) = (Except.ok h, dictSet tu token h) ∧
        lookupA (dictSet tu token h) token = some h) ∧
    (∀ u, lookupA tu token = some u → u ≠ "" →
      current_user_id tu token none = (Except.ok u, tu) ∧
      current_user_id tu token (some u) = (Except.ok u, tu) ∧
      (∀ h, h ≠ "" → h ≠ u →
        current_user_id tu token (some h) = (Except.error Err.forbidden, tu)) ∧
      (∀ t' h', lookupA (current_user_id tu t' h').2 token = some u)) := by
  constructor
  · intro hnone
    have ht : truthyOpt (lookupA tu token) = none := by rw [hnone]; rfl
    constructor
    · unfold current_user_id
      rw [ht]
      rfl
    · intro h hne
      constructor
      · unfold current_user_id
        rw [ht]
        simp [truthyOpt, hne]
      · rw [lookupA_dictSet, if_pos rfl]
  · intro u hu hune
    have ht : truthyOpt (lookupA tu token) = some u := by
      rw [hu]; simp [truthyOpt, hune]
    refine ⟨?_, ?_, ?_, ?_⟩
    · unfold current_user_id
      rw [ht]
    · unfold current_user_id
      rw [ht]
      simp
    · intro h hne hneu
      unfold current_user_id
      rw [ht]
      simp [hne, hneu]
    · intro t' h'
      unfold current_user_id
      cases htl : truthyOpt (lookupA tu t') with
      | some v =>
        cases h' with
        | none => exact hu
        | some h =>
          show lookupA (if h ≠ "" ∧ h ≠ v then (Except.error Err.forbidden, tu)
            else (Except.ok v, tu)).2 token = some u
          by_cases hc : h ≠ "" ∧ h ≠ v
          · rw [if_pos hc]; exact hu
          · rw [if_neg hc]; exact hu
      | none =>
        cases hth : truthyOpt h' with
        | none =>
          show lookupA (Except.error Err.unauthenticated, tu).2 token = some u
          exact hu
        | some hv =>
          show lookupA (dictSet tu t' hv) token = some u
          have hne : token ≠ t' := by
            intro hc
            rw [← hc, hu] at htl
            simp [truthyOpt, hune] at htl
          rw [lookupA_dictSet, if_neg hne]
          exact hu

/-- Witness for C2: an unknown token with hint "alice" binds; the bound
token then resolves to "alice", rejects hint "bob" with Forbidden
leaving the table unchanged, and later calls keep the binding. -/
theorem C2_identity_resolution_witness :
    current_user_id [] "tok" (some "alice") = (Except.ok "alice", [("tok", "alice")]) ∧
    current_user_id [("tok", "alice")] "tok" none = (Except.ok "alice", [("tok", "alice")]) ∧
    current_user_id [("tok", "alice")] "tok" (some "bob") =
      (Except.error Err.forbidden, [("tok", "alice")]) ∧
    lookupA (current_user_id [("tok", "alice")] "tok2" (some "bob")).2 "tok" = some "alice" := by
  have h1 := (C2_identity_resolution [] "tok").1 rfl
  have h2 := (C2_identity_resolution [("tok", "alice")] "tok").2 "alice" rfl (by decide)
  refine ⟨?_, h2.1, h2.2.2.1 "bob" (by decide) (by decide), h2.2.2.2 "tok2" (some "bob")⟩
  have h3 := (h1.2 "alice" (by decide)).1
  simpa using h3

/-- Claim C10: an empty-string identity hint is treated as absent: with
an unknown token it fails Unauthenticated and the empty string is never
bound; with a known token the bound user is returned with no Forbidden
check. -/
theorem C10_empty_hint (tu : TU) (token : String) :
    (lookupA tu token = none →
      current_user_id tu token (some "") = (Except.error Err.unauthenticated, tu)) ∧
    (∀ u, lookupA tu token = some u → u ≠ "" →
      current_user_id tu token (some "") = (Except.ok u, tu)) := by
  constructor
  · intro hnone
    have ht : truthyOpt (lookupA tu token) = none := by rw [hnone]; rfl
    unfold current_user_id
    rw [ht]
    rfl
  · intro u hu hune
    have ht : truthyOpt (lookupA tu token) = some u := by
      rw [hu]; simp [truthyOpt, hune]
    unfold current_user_id
    rw [ht]
    simp

/-- Witness for C10: the empty hint leaves an unknown token unbound and
a bound token resolving to its user. -/
theorem C10_empty_hint_witness :
    current_user_id [] "tok" (some "") = (Except.error Err.unauthenticated, []) ∧
    current_user_id [("tok", "alice")] "tok" (some "") =
      (Except.ok "alice", [("tok", "alice")]) := by
  exact ⟨(C10_empty_hint [] "tok").1 rfl,
    (C10_empty_hint [("tok", "alice")] "tok").2 "alice" rfl (by decide)⟩

/-- A session mixing a naive and an offset-aware parseable timestamp;
on it Python's `ts_list.sort()` raises TypeError. -/
def sessMix : Session :=
  ⟨some "2026-01-01T09:00:00", none,
    [⟨"bet", 1, "2026-01-01T10:00:00"⟩, ⟨"win", 2, "2026-01-01T11:00:00Z"⟩]⟩

/-- A store holding the mixed-timestamp session. -/
def stMix : St := ⟨[("u", [("s", sessMix)])], []⟩

/-- Counterexample to C4 as stated: a session whose events carry one
naive and one aware timestamp — both individually parseable — makes
`compute_summary` raise TypeError out of the sort instead of returning
a Summary, so the computation can fail on an active session with a
failure other than NotFound. -/
theorem C4_counterexample :
    lookupSession stMix "u" "s" = some sessMix ∧
    (∀ e ∈ sessMix.events, (parse_iso e.timestamp).isSome = true) ∧
    compute_summary stMix "u" "s" "NOW" = Except.error Err.typeError ∧
    Err.typeError ≠ Err.notFound := by
  refine ⟨rfl, by decide, rfl, by decide⟩

/-- Claim C4 (amended): unparseable timestamps are silently skipped and
never by themselves make `compute_summary` fail; for an active session
the computation returns a Summary whenever the parseable timestamps do
not mix naive and offset-aware values, and raises TypeError exactly
when they do; when neither an active session nor a finished summary
exists the failure is NotFound. -/
theorem C4_failure_modes (st : St) (u sid now : String) :
    (∀ sess, lookupSession st u sid = some sess →
      (mixedTs (parsedTs sess.events) = false →
        compute_summary st u sid now = Except.ok (summarize sess u sid now)) ∧
      (mixedTs (parsedTs sess.events) = true →
        compute_summary st u sid now = Except.error Err.typeError)) ∧
    (lookupSession st u sid = none →
      (finishedOf st u).find? (fun s => s.session_id == sid) = none →
      compute_summary st u sid now = Except.error Err.notFound) := by
  constructor
  · intro sess h1
    rw [compute_summary_active st u sid now sess h1]
    constructor <;> intro hm <;> simp [hm]
  · intro h1 h2
    unfold compute_summary
    rw [h1, h2]

/-- A session with one unparseable timestamp among parseable ones. -/
def sessGarbage : Session :=
  ⟨some "x", none, [⟨"bet", 1, "garbage"⟩, ⟨"win", 2, "2026-01-01T11:00:00Z"⟩]⟩

/-- A store holding the partially-unparseable session. -/
def stGarbage : St := ⟨[("u", [("s", sessGarbage)])], []⟩

/-- Witness for the amended C4: a session with one unparseable
timestamp still yields a Summary, and the mixed-timestamp session
yields TypeError. -/
theorem C4_failure_modes_witness :
    compute_summary stGarbage "u" "s" "NOW" =
      Except.ok (summarize sessGarbage "u" "s" "NOW") ∧
    compute_summary stMix "u" "s" "NOW" = Except.error Err.typeError := by
  refine ⟨((C4_failure_modes stGarbage "u" "s" "NOW").1 sessGarbage rfl).1 rfl,
    ((C4_failure_modes stMix "u" "s" "NOW").1 sessMix rfl).2 rfl⟩

/-- A session whose sole event timestamp carries a +05:00 offset. -/
def sessOff : Session :=
  ⟨some "2026-01-01T10:00:00+05:00", none, [⟨"bet", 1, "2026-01-01T10:00:00+05:00"⟩]⟩

/-- A store holding the +05:00 session. -/
def stOff : St := ⟨[("u", [("s", sessOff)])], []⟩

/-- Counterexample to C3 as stated: the event timestamp
2026-01-01T10:00:00+05:00 is rendered as start_time
2026-01-01T10:00:00+00:00 — the wall-clock fields are relabelled UTC,
not converted — and the rendered string denotes a different instant
(five hours later) than the original converted to UTC. -/
theorem C3_counterexample :
    (compute_summary stOff "u" "s" "NOW").map (fun s => s.start_time) =
      Except.ok "2026-01-01T10:00:00+00:00" ∧
    (∃ d0 dr, parse_iso "2026-01-01T10:00:00+05:00" = some d0 ∧
      parse_iso "2026-01-01T10:00:00+00:00" = some dr ∧ instSec dr ≠ instSec d0) := by
  refine ⟨rfl, ⟨_, _, rfl, rfl, by decide⟩⟩

/-- Claim C3 (amended): for a session with at least one parseable event
timestamp, none mixing naive and aware, start_time is rendered from the
earliest-instant timestamp and, when no end_time was stored, end_time
from the latest; rendering relabels the wall-clock fields with a UTC
offset at second precision, so the rendered string denotes the same
instant as the original when the original's UTC offset is zero or
absent (the hypothesis added by the counterexample). -/
theorem C3_time_derivation (st : St) (u sid now : String) (sess : Session)
    (h1 : lookupSession st u sid = some sess)
    (hne : parsedTs sess.events ≠ [])
    (hmix : mixedTs (parsedTs sess.events) = false)
    (hutc : ∀ d ∈ parsedTs sess.events, d.offset = none ∨ d.offset = some 0) :
    ∃ s, compute_summary st u sid now = Except.ok s ∧
      (∃ dmin ∈ parsedTs sess.events,
        (∀ d ∈ parsedTs sess.events, dtKey dmin ≤ dtKey d) ∧
        s.start_time = isoformatUTC dmin ∧
        ∃ dr, parse_iso s.start_time = some dr ∧ instSec dr = instSec dmin) ∧
      (sess.end_time = none →
        ∃ dmax ∈ parsedTs sess.events,
          (∀ d ∈ parsedTs sess.events, dtKey d ≤ dtKey dmax) ∧
          s.end_time = isoformatUTC dmax ∧
          ∃ dr2, parse_iso s.end_time = some dr2 ∧ instSec dr2 = instSec dmax) := by
  obtain ⟨s0, rest, hsort⟩ : ∃ s0 rest,
      List.insertionSort keyLe (parsedTs sess.events) = s0 :: rest := by
    cases hs : List.insertionSort keyLe (parsedTs sess.events) with
    | nil => exact absurd hs (insertionSort_ne_nil hne)
    | cons a l => exact ⟨a, l, rfl⟩
  have hsorted : List.Sorted keyLe (s0 :: rest) := by
    rw [← hsort]; exact List.sorted_insertionSort keyLe (parsedTs sess.events)
  have hmemfwd : ∀ x ∈ s0 :: rest, x ∈ parsedTs sess.events := by
    intro x hx
    rw [← hsort] at hx
    exact (List.mem_insertionSort keyLe).mp hx
  have hmemback : ∀ d ∈ parsedTs sess.events, d ∈ s0 :: rest := by
    intro d hd
    rw [← hsort]
    exact (List.mem_insertionSort keyLe).mpr hd
  have hvalid : ∀ x ∈ parsedTs sess.events, dtValid x = true := by
    intro x hx
    obtain ⟨e, _, he⟩ := List.mem_filterMap.mp hx
    exact parse_iso_valid he
  have hinst : ∀ x, x ∈ parsedTs sess.events → dtValid x = true →
      ∃ dr, parse_iso (isoformatUTC x) = some dr ∧ instSec dr = instSec x := by
    intro x hx hv
    refine ⟨⟨x.year, x.month, x.day, x.hour, x.minute, x.second, 0, some 0⟩,
      parse_iso_isoformatUTC x hv, ?_⟩
    rcases hutc x hx with ho | ho <;> simp [instSec, ho]
  refine ⟨summarize sess u sid now, ?_, ?_, ?_⟩
  · rw [compute_summary_active st u sid now sess h1]
    simp [hmix]
  · have hstart : (summarize sess u sid now).start_time = isoformatUTC s0 := by
      unfold summarize
      dsimp only
      rw [hsort]
      simp [pyOrStr, isoformatUTC_ne_empty s0]
    have hs0 : s0 ∈ parsedTs sess.events := hmemfwd s0 (List.mem_cons_self _ _)
    obtain ⟨dr, hdr, hdi⟩ := hinst s0 hs0 (hvalid s0 hs0)
    exact ⟨s0, hs0, fun d hd => sorted_head_min s0 rest hsorted d (hmemback d hd),
      hstart, dr, hstart ▸ hdr, hdi⟩
  · intro hend
    have hlmem : rest.getLastD s0 ∈ parsedTs sess.events :=
      hmemfwd _ (getLastD_mem rest s0)
    have hendt : (summarize sess u sid now).end_time = isoformatUTC (rest.getLastD s0) := by
      unfold summarize
      dsimp only
      rw [hsort, hend]
      simp [pyOrStr, isoformatUTC_ne_empty (rest.getLastD s0)]
      intro h2
      exact absurd h2 (isoformatUTC_ne_empty _)
    obtain ⟨dr2, hdr2, hdi2⟩ := hinst _ hlmem (hvalid _ hlmem)
    exact ⟨rest.getLastD s0, hlmem,
      fun d hd => sorted_getLastD_max rest s0 hsorted d (hmemback d hd),
      hendt, dr2, hendt ▸ hdr2, hdi2⟩

/-- Witness for the amended C3 at the worked example, whose timestamps
are all explicitly UTC. -/
theorem C3_time_derivation_witness :
    ∃ s, compute_summary stEx "u" "s" "NOW" = Except.ok s ∧
      (∃ dmin ∈ parsedTs sessEx.events,
        (∀ d ∈ parsedTs sessEx.events, dtKey dmin ≤ dtKey d) ∧
        s.start_time = isoformatUTC dmin ∧
        ∃ dr, parse_iso s.start_time = some dr ∧ instSec dr = instSec dmin) ∧
      (sessEx.end_time = none →
        ∃ dmax ∈ parsedTs sessEx.events,
          (∀ d ∈ parsedTs sessEx.events, dtKey d ≤ dtKey dmax) ∧
          s.end_time = isoformatUTC dmax ∧
          ∃ dr2, parse_iso s.end_time = some dr2 ∧ instSec dr2 = instSec dmax) :=
  C3_time_derivation stEx "u" "s" "NOW" sessEx rfl (by decide) rfl (by decide)

theorem lookupSession_setSession (st : St) (u sid : String) (s : Session) :
    lookupSession (setSession st u sid s) u sid = some s := by
  unfold lookupSession setSession
  dsimp only
  rw [lookupA_dictSet, if_pos rfl]
  dsimp only [Option.getD]
  rw [lookupA_dictSet, if_pos rfl]

theorem finishedOf_setSession (st : St) (u sid : String) (s : Session) (u' : String) :
    finishedOf (setSession st u sid s) u' = finishedOf st u' := rfl

theorem lookupSession_setFinished (st : St) (u : String) (items : List SummaryV)
    (u' sid : String) :
    lookupSession (setFinished st u items) u' sid = lookupSession st u' sid := rfl

theorem finishedOf_setFinished (st : St) (u : String) (items : List SummaryV) :
    finishedOf (setFinished st u items) u = items := by
  unfold finishedOf setFinished
  dsimp only
  rw [lookupA_dictSet, if_pos rfl]
  rfl

theorem end_session_eq (st : St) (u sid now : String) (sess : Session)
    (h1 : lookupSession st u sid = some sess) (he : sess.end_time = none)
    (hm : mixedTs (parsedTs sess.events) = false) :
    end_session st u sid now = Except.ok
      (setFinished (setSession st u sid { sess with end_time := some now }) u
        (upsertFinished (finishedOf st u)
          (summarize { sess with end_time := some now } u sid now)),
       summarize { sess with end_time := some now } u sid now) := by
  unfold end_session
  rw [h1]
  dsimp only
  rw [he]
  dsimp only
  rw [compute_summary_active _ u sid now _ (lookupSession_setSession st u sid _)]
  simp [hm]
  rfl

theorem end_session_eq_ended (st : St) (u sid now t : String) (sess : Session)
    (h1 : lookupSession st u sid = some sess) (he : sess.end_time = some t)
    (hm : mixedTs (parsedTs sess.events) = false) :
    end_session st u sid now = Except.ok
      (setFinished (setSession st u sid sess) u
        (upsertFinished (finishedOf st u) (summarize sess u sid now)),
       summarize sess u sid now) := by
  unfold end_session
  rw [h1]
  dsimp only
  rw [he]
  dsimp only
  rw [compute_summary_active _ u sid now _ (lookupSession_setSession st u sid _)]
  simp [hm]
  rfl

theorem summarize_end_time_of_some (sess : Session) (u sid now t : String)
    (he : sess.end_time = some t) (ht : t ≠ "") :
    (summarize sess u sid now).end_time = t := by
  unfold summarize
  dsimp only
  cases hs : List.insertionSort keyLe (parsedTs sess.events) with
  | nil =>
    dsimp only
    rw [he]
    simp [pyOrStr, ht]
  | cons a l =>
    dsimp only
    rw [he]
    simp [pyOrStr, ht]

/-- Claim C5: ending the same session twice yields the same session_id,
rounds and sums both times; end_time is set by the first call and not
advanced by the second; the second call still recomputes the summary
and overwrites the stored archive entry. -/
theorem C5_end_twice (st : St) (u sid now1 now2 : String) (sess : Session)
    (h1 : lookupSession st u sid = some sess)
    (he : sess.end_time = none)
    (hn1 : now1 ≠ "")
    (hm : mixedTs (parsedTs sess.events) = false) :
    ∃ st1 s1 st2 s2,
      end_session st u sid now1 = Except.ok (st1, s1) ∧
      end_session st1 u sid now2 = Except.ok (st2, s2) ∧
      s1.session_id = sid ∧ s2.session_id = sid ∧
      s1.rounds = s2.rounds ∧ s1.total_bets = s2.total_bets ∧
      s1.total_wins = s2.total_wins ∧ s1.net_change = s2.net_change ∧
      s1.end_time = now1 ∧ s2.end_time = now1 ∧
      (∃ sess2, lookupSession st2 u sid = some sess2 ∧ sess2.end_time = some now1) ∧
      finishedOf st2 u = upsertFinished (finishedOf st1 u) s2 ∧
      (finishedOf st2 u).find? (fun x => x.session_id == sid) = some s2 := by
  have hev : ({ sess with end_time := some now1 } : Session).events = sess.events := rfl
  have h1' : lookupSession
      (setFinished (setSession st u sid { sess with end_time := some now1 }) u
        (upsertFinished (finishedOf st u)
          (summarize { sess with end_time := some now1 } u sid now1))) u sid =
      some { sess with end_time := some now1 } := by
    rw [lookupSession_setFinished]
    exact lookupSession_setSession st u sid _
  have hcall1 := end_session_eq st u sid now1 sess h1 he hm
  have hcall2 := end_session_eq_ended _ u sid now2 now1
    { sess with end_time := some now1 } h1' rfl hm
  refine ⟨_, _, _, _, hcall1, hcall2, rfl, rfl, rfl, rfl, rfl, rfl,
    summarize_end_time_of_some _ u sid now1 now1 rfl hn1,
    summarize_end_time_of_some _ u sid now2 now1 rfl hn1,
    ⟨{ sess with end_time := some now1 }, ?_, rfl⟩, ?_, ?_⟩
  · rw [lookupSession_setFinished]
    exact lookupSession_setSession _ u sid _
  · rw [finishedOf_setFinished]
  · rw [finishedOf_setFinished]
    have hsid : (summarize { sess with end_time := some now1 } u sid now2).session_id = sid :=
      rfl
    rw [← hsid]
    exact upsertFinished_find _ _

/-- Witness for C5: ending the worked-example session twice. -/
theorem C5_end_twice_witness :
    ∃ st1 s1 st2 s2,
      end_session stEx "u" "s" "2026-02-12T15:00:00+00:00" = Except.ok (st1, s1) ∧
      end_session st1 "u" "s" "2026-02-12T16:00:00+00:00" = Except.ok (st2, s2) ∧
      s1.session_id = "s" ∧ s2.session_id = "s" ∧
      s1.rounds = s2.rounds ∧ s1.total_bets = s2.total_bets ∧
      s1.total_wins = s2.total_wins ∧ s1.net_change = s2.net_change ∧
      s1.end_time = "2026-02-12T15:00:00+00:00" ∧
      s2.end_time = "2026-02-12T15:00:00+00:00" ∧
      (∃ sess2, lookupSession st2 "u" "s" = some sess2 ∧
        sess2.end_time = some "2026-02-12T15:00:00+00:00") ∧
      finishedOf st2 "u" = upsertFinished (finishedOf st1 "u") s2 ∧
      (finishedOf st2 "u").find? (fun x => x.session_id == "s") = some s2 :=
  C5_end_twice stEx "u" "s" "2026-02-12T15:00:00+00:00" "2026-02-12T16:00:00+00:00"
    sessEx rfl rfl (by decide) rfl

/-- Claim C6: upserting a summary whose session_id already exists
replaces the entry in place leaving the archive length unchanged;
a new session_id appends one entry; at most one entry per session_id is
preserved; and ending a session performs exactly this upsert on the
user's archive. -/
theorem C6_upsert_invariant (items : List SummaryV) (s : SummaryV) :
    ((∃ x ∈ items, x.session_id = s.session_id) →
      (upsertFinished items s).length = items.length) ∧
    ((∀ x ∈ items, x.session_id ≠ s.session_id) →
      upsertFinished items s = items ++ [s]) ∧
    (∀ sid, cntSid items sid ≤ 1 → cntSid (upsertFinished items s) sid ≤ 1) ∧
    (∀ st u sid now st' s', end_session st u sid now = Except.ok (st', s') →
      finishedOf st' u = upsertFinished (finishedOf st u) s') := by
  refine ⟨upsertFinished_length_of_mem items s, upsertFinished_of_not_mem items s, ?_, ?_⟩
  · intro sid hle
    by_cases h : sid = s.session_id
    · subst h
      rw [cntSid_upsertFinished_self]
      omega
    · rw [cntSid_upsertFinished_ne items s sid h]
      exact hle
  · intro st u sid now st' s' h
    unfold end_session at h
    cases hL : lookupSession st u sid with
    | none => rw [hL] at h; cases h
    | some sess =>
      rw [hL] at h
      dsimp only at h
      cases hE : sess.end_time with
      | none =>
        rw [hE] at h
        dsimp only at h
        split at h
        · cases h
        · rename_i smry hC
          injection h with h2
          cases h2
          rw [finishedOf_setFinished, finishedOf_setSession]
      | some t =>
        rw [hE] at h
        dsimp only at h
        split at h
        · cases h
        · rename_i smry hC
          injection h with h2
          cases h2
          rw [finishedOf_setFinished, finishedOf_setSession]

/-- Archive fixtures for the witnesses. -/
def sA : SummaryV := ⟨"s1", "u", "t0", "t5", 1, Num.int 1, Num.int 2, Num.int 1⟩

/-- A second archived summary with a different session id. -/
def sB : SummaryV := ⟨"s2", "u", "t1", "t7", 2, Num.int 3, Num.int 1, Num.int (-2)⟩

/-- A replacement summary carrying sA's session id. -/
def sA2 : SummaryV := ⟨"s1", "u", "t0", "t9", 3, Num.int 5, Num.int 5, Num.int 0⟩

/-- Witness for C6: replacing keeps length 2, a fresh id appends, the
uniqueness bound holds, and ending the worked-example session upserts
its summary. -/
theorem C6_upsert_invariant_witness :
    (upsertFinished [sA, sB] sA2).length = [sA, sB].length ∧
    upsertFinished [sA, sB] ⟨"s3", "u", "a", "b", 0, Num.int 0, Num.int 0, Num.int 0⟩ =
      [sA, sB] ++ [⟨"s3", "u", "a", "b", 0, Num.int 0, Num.int 0, Num.int 0⟩] ∧
    cntSid (upsertFinished [sA, sB] sA2) "s1" ≤ 1 ∧
    finishedOf (setFinished (setSession stEx "u" "s"
        { sessEx with end_time := some "2026-02-12T15:00:00+00:00" }) "u"
        (upsertFinished (finishedOf stEx "u")
          (summarize { sessEx with end_time := some "2026-02-12T15:00:00+00:00" }
            "u" "s" "2026-02-12T15:00:00+00:00"))) "u" =
      upsertFinished (finishedOf stEx "u")
        (summarize { sessEx with end_time := some "2026-02-12T15:00:00+00:00" }
          "u" "s" "2026-02-12T15:00:00+00:00") := by
  have h := C6_upsert_invariant [sA, sB] sA2
  refine ⟨h.1 ⟨sA, by decide, rfl⟩, (C6_upsert_invariant [sA, sB] _).2.1 (by decide),
    h.2.2.1 "s1" (by decide), ?_⟩
  exact (C6_upsert_invariant [] sA).2.2.2 stEx "u" "s" "2026-02-12T15:00:00+00:00" _ _
    (end_session_eq stEx "u" "s" "2026-02-12T15:00:00+00:00" sessEx rfl rfl rfl)

theorem truthyOpt_some_ne {o : Option String} {s : String}
    (h : truthyOpt o = some s) : s ≠ "" := by
  cases o with
  | none => cases h
  | some t =>
    unfold truthyOpt at h
    dsimp only at h
    by_cases ht : t = ""
    · rw [if_pos ht] at h
      cases h
    · rw [if_neg ht] at h
      cases h
      exact ht

/-- Claim C7: export takes the identifier from the current query
parameter when non-empty, else from the legacy one; both missing or
empty fails InvalidArgument; a finished-archive match is returned
verbatim in preference to any active session; else the summary is
computed from the active session; with neither, NotFound. -/
theorem C7_export (st : St) (a b : Option String) (u now : String) :
    (truthyOpt a = none → truthyOpt b = none →
      export_session st a b u now = Except.error Err.invalidArgument) ∧
    (∀ s, truthyOpt a = some s → truthyOpt (pyOrOpt a b) = some s) ∧
    (truthyOpt a = none → pyOrOpt a b = b) ∧
    (∀ sid, truthyOpt (pyOrOpt a b) = some sid →
      (∀ f, (finishedOf st u).find? (fun x => x.session_id == sid) = some f →
        export_session st a b u now = Except.ok f) ∧
      ((finishedOf st u).find? (fun x => x.session_id == sid) = none →
        export_session st a b u now = compute_summary st u sid now) ∧
      ((finishedOf st u).find? (fun x => x.session_id == sid) = none →
        lookupSession st u sid = none →
        export_session st a b u now = Except.error Err.notFound)) := by
  refine ⟨?_, ?_, ?_, ?_⟩
  · intro ha hb
    unfold export_session
    rw [show pyOrOpt a b = b from by unfold pyOrOpt; rw [ha], hb]
  · intro s ha
    have hs := truthyOpt_some_ne ha
    unfold pyOrOpt
    rw [ha]
    show truthyOpt (some s) = some s
    simp [truthyOpt, hs]
  · intro ha
    unfold pyOrOpt
    rw [ha]
  · intro sid hsid
    refine ⟨?_, ?_, ?_⟩
    · intro f hf
      unfold export_session
      rw [hsid]
      dsimp only
      rw [hf]
    · intro hf
      unfold export_session
      rw [hsid]
      dsimp only
      rw [hf]
    · intro hf hl
      unfold export_session
      rw [hsid]
      dsimp only
      rw [hf]
      dsimp only
      unfold compute_summary
      rw [hl]
      dsimp only
      rw [hf]

/-- A store with an empty active table and one finished summary. -/
def stFin : St := ⟨[], [("u", [sA])]⟩

/-- Witness for C7: missing identifiers give InvalidArgument, the
current parameter wins over the legacy one, a finished match is
returned verbatim, and an unknown id gives NotFound. -/
theorem C7_export_witness :
    export_session stFin none (some "") "u" "NOW" = Except.error Err.invalidArgument ∧
    truthyOpt (pyOrOpt (some "s1") (some "old")) = some "s1" ∧
    pyOrOpt (some "") (some "old") = some "old" ∧
    export_session stFin (some "s1") none "u" "NOW" = Except.ok sA ∧
    export_session stFin none (some "zz") "u" "NOW" = Except.error Err.notFound := by
  refine ⟨(C7_export stFin none (some "") "u" "NOW").1 rfl rfl,
    (C7_export stFin (some "s1") (some "old") "u" "NOW").2.1 "s1" rfl,
    (C7_export stFin (some "") (some "old") "u" "NOW").2.2.1 rfl,
    ((C7_export stFin (some "s1") none "u" "NOW").2.2.2 "s1" rfl).1 sA (by decide),
    ((C7_export stFin none (some "zz") "u" "NOW").2.2.2 "zz" rfl).2.2 rfl rfl⟩

/-- Claim C8: `get_latest` returns an entry whose end_time no archived
entry lexicographically exceeds when the user's archive is non-empty,
and an explicit "none" on an empty archive — never an error and never a
default summary. -/
theorem C8_latest (st : St) (u : String) :
    (finishedOf st u = [] → get_latest st u = none) ∧
    (finishedOf st u ≠ [] →
      ∃ m, get_latest st u = some m ∧ m ∈ finishedOf st u ∧
        ∀ x ∈ finishedOf st u, strGt x.end_time m.end_time = false) := by
  constructor
  · intro h
    unfold get_latest
    rw [h]
    rfl
  · intro h
    unfold get_latest
    exact latestOf_spec _ h

/-- A store with two finished summaries for one user. -/
def stFin2 : St := ⟨[], [("u", [sA, sB])]⟩

/-- Witness for C8: the empty archive gives the explicit none, the
two-entry archive gives a maximal entry. -/
theorem C8_latest_witness :
    get_latest stFin2 "v" = none ∧
    (∃ m, get_latest stFin2 "u" = some m ∧ m ∈ finishedOf stFin2 "u" ∧
      ∀ x ∈ finishedOf stFin2 "u", strGt x.end_time m.end_time = false) :=
  ⟨(C8_latest stFin2 "v").1 rfl, (C8_latest stFin2 "u").2 (by decide)⟩

/-- Claim C9: serializing the finished archive to the durable JSON
document and reading it back reproduces every summary field-for-field,
including whether each numeric field is an integer or a decimal. -/
theorem C9_archive_roundtrip (st : St) :
    decodeArchive (save_finished st) = some st.FINISHED := by
  unfold save_finished decodeArchive
  exact decodeEntries_encode st.FINISHED

end SSM
